/-
Verification of the skill-sync engine (skill_sync.py): manifest handling,
sync-status resolution, recursive download walk, and the per-unit sync worker.

The Python code is embedded shallowly:
- JSON values parsed by `json.loads` become the `Json` inductive; Python dicts
  become association lists with unique keys (insertion order preserved, as in
  Python), `d[k] = v` becomes `setKey` (replace in place or append).
- The manifest file on disk becomes `FileState`: absent, present-but-unparseable
  (where `json.loads` would raise), or present with a parsed value.
- Exceptions become `Except Err`: `parseError` for `json.JSONDecodeError`,
  `keyError` for `KeyError`, `typeError` for the `TypeError`/`AttributeError`
  family raised when a JSON value has an unexpected shape (we do not
  distinguish these further; no claim does).
- Network downloads in the worker become an oracle `download : String →
  Except String (List String)` covering the rmtree + download_skill part of the
  per-unit try block; `record_sync` is modelled precisely.
- `datetime.now(...).isoformat()` becomes an explicit `now : String` parameter.
-/
import Mathlib

set_option autoImplicit false

namespace SkillSync

/-- JSON values, as returned by the host JSON parser. Numbers are irrelevant to
every claim, so they are carried as `Int`. Objects are association lists with
the keys unique and in insertion order, matching Python dict semantics. -/
inductive Json where
  | null : Json
  | bool (b : Bool) : Json
  | num (n : Int) : Json
  | str (s : String) : Json
  | arr (items : List Json) : Json
  | obj (fields : List (String × Json)) : Json

/-- Python dict lookup `d.get(k)` on an association list (keys are unique). -/
def jlookup : List (String × Json) → String → Option Json
  | [], _ => none
  | (k, v) :: rest, key => if k = key then some v else jlookup rest key

/-- Python dict assignment `d[k] = v`: replace the value at an existing key in
place, else append the new pair at the end (insertion order). -/
def setKey : List (String × Json) → String → Json → List (String × Json)
  | [], key, v => [(key, v)]
  | (k, w) :: rest, key, v =>
    if k = key then (key, v) :: rest else (k, w) :: setKey rest key v

/-- The exceptions the embedded code can raise. -/
inductive Err where
  | parseError : Err
  | keyError : Err
  | typeError : Err
  deriving Repr, DecidableEq

/-- Rendering of an exception as the message text interpolated into the
error-progress event (`f"Error syncing {name}: {e}"`). -/
def errMsg : Err → String
  | .parseError => "JSONDecodeError"
  | .keyError => "KeyError"
  | .typeError => "TypeError"

/-- State of the manifest file on disk. `corrupt` stands for any file whose
contents `json.loads` rejects. -/
inductive FileState where
  | absent : FileState
  | corrupt : FileState
  | parsed (j : Json) : FileState

/-- `Skill` dataclass. -/
structure Skill where
  name : String
  description : String := ""
  files : List String := []
  deriving Repr, DecidableEq

/-- `SyncStatus` dataclass; `status` is one of "new", "update", "ok". -/
structure SyncStatus where
  skill : Skill
  status : String
  local_sha : Option String := none
  remote_sha : Option String := none
  deriving Repr, DecidableEq

/-- `SkillManager.get_manifest`: parse the file if it exists (propagating a
parse failure), else the empty manifest `{"skills": {}}`. -/
def get_manifest : FileState → Except Err Json
  | .absent => .ok (.obj [("skills", .obj [])])
  | .corrupt => .error .parseError
  | .parsed j => .ok j

/-- Python `d.get(key, default)`; raises (`AttributeError`, here `typeError`)
when the receiver is not a dict. -/
def dictGet (j : Json) (key : String) (default : Json) : Except Err Json :=
  match j with
  | .obj fields => .ok ((jlookup fields key).getD default)
  | _ => .error .typeError

/-- `local_skills.get(skill.name)` in the status loop: `none` when the unit has
no manifest entry. Raises when the "skills" value is not a dict. -/
def lookupUnitInfo (local_skills : Json) (name : String) : Except Err (Option Json) :=
  match local_skills with
  | .obj units => .ok (jlookup units name)
  | _ => .error .typeError

/-- `local_info.get("commit_sha", "")` followed by slicing: the stored revision
string, defaulting to `""` when the field is absent. A non-dict entry or a
non-string field raises. -/
def entry_commit_sha (info : Json) : Except Err String :=
  match info with
  | .obj fields =>
    match jlookup fields "commit_sha" with
    | some (.str s) => .ok s
    | some _ => .error .typeError
    | none => .ok ""
  | _ => .error .typeError

/-- Body of the loop in `SkillManager.get_sync_status` (lines 161-184): resolve
one skill against its optional manifest entry and the remote revision. -/
def statusFor (skill : Skill) (local_info : Option Json) (remote_sha : String) :
    Except Err SyncStatus :=
  match local_info with
  | none =>
    .ok { skill := skill, status := "new", local_sha := none,
          remote_sha := some (remote_sha.take 7) }
  | some info =>
    match entry_commit_sha info with
    | .error e => .error e
    | .ok s =>
      if s.take 7 ≠ remote_sha.take 7 then
        .ok { skill := skill, status := "update",
              local_sha := if s.take 7 = "" then none else some (s.take 7),
              remote_sha := some (remote_sha.take 7) }
      else
        .ok { skill := skill, status := "ok", local_sha := some (s.take 7),
              remote_sha := some (remote_sha.take 7) }

/-- The `for skill in skills` loop of `get_sync_status`, appending one status
per skill; the first exception aborts the whole call. -/
def status_list (local_skills : Json) (remote_sha : String) :
    List Skill → Except Err (List SyncStatus)
  | [] => .ok []
  | skill :: rest =>
    match lookupUnitInfo local_skills skill.name with
    | .error e => .error e
    | .ok info =>
      match statusFor skill info remote_sha with
      | .error e => .error e
      | .ok s =>
        match status_list local_skills remote_sha rest with
        | .error e => .error e
        | .ok others => .ok (s :: others)

/-- `SkillManager.get_sync_status`: load the manifest, take its "skills" table
(defaulting to `{}`), and resolve each skill in input order. -/
def get_sync_status (skills : List Skill) (remote_sha : String) (st : FileState) :
    Except Err (List SyncStatus) :=
  match get_manifest st with
  | .error e => .error e
  | .ok manifest =>
    match dictGet manifest "skills" (.obj []) with
    | .error e => .error e
    | .ok local_skills => status_list local_skills remote_sha skills

/-- The manifest entry written by `record_sync`:
`{"commit_sha": ..., "synced_at": ..., "files": [...]}`. -/
def mkEntry (commit_sha now : String) (files : List String) : Json :=
  .obj [("commit_sha", .str commit_sha), ("synced_at", .str now),
        ("files", .arr (files.map .str))]

/-- `SkillManager.record_sync`: load the manifest, index `manifest["skills"]`
(a `KeyError` when the parsed object lacks the key, a `TypeError` when the
manifest or the "skills" value is not a dict), set the unit's entry, and save
the whole document. On any raise nothing is written. -/
def record_sync (skill_name commit_sha : String) (files : List String) (now : String)
    (st : FileState) : Except Err FileState :=
  match get_manifest st with
  | .error e => .error e
  | .ok (.obj fields) =>
    match jlookup fields "skills" with
    | none => .error .keyError
    | some (.obj units) =>
      .ok (.parsed (.obj (setKey fields "skills"
        (.obj (setKey units skill_name (mkEntry commit_sha now files))))))
    | some _ => .error .typeError
  | _ => .error .typeError

/-- One entry of a remote directory-listing response, in the order the remote
API returned it: a file, a subdirectory (with the listing its own fetch would
return), or an entry of any other type (symlink, submodule), which the
`if`/`elif` in `_download_directory` skips. -/
inductive RemoteEntry where
  | file (name : String) (path : String) : RemoteEntry
  | dir (name : String) (path : String) (entries : List RemoteEntry) : RemoteEntry
  | other (name : String) (path : String) : RemoteEntry

/-- `GitHubClient._download_directory`, tracking the `files` accumulator: walk
the listing in response order; a file entry is downloaded and its leaf name
appended at its position; a directory entry is recursed into immediately at its
position. -/
def download_directory : List RemoteEntry → List String
  | [] => []
  | .file name _ :: rest => name :: download_directory rest
  | .dir _ _ entries :: rest => download_directory entries ++ download_directory rest
  | .other _ _ :: rest => download_directory rest

/-- `GitHubClient.download_skill`: walk the skill's root listing and return the
accumulated file names. -/
def download_skill (rootListing : List RemoteEntry) : List String :=
  download_directory rootListing

/-- Number of file entries in a whole listing, subtrees included. -/
def listing_file_count : List RemoteEntry → Nat
  | [] => 0
  | .file _ _ :: rest => 1 + listing_file_count rest
  | .dir _ _ entries :: rest => listing_file_count entries + listing_file_count rest
  | .other _ _ :: rest => listing_file_count rest

/-- Progress reported through `call_from_thread(self.update_status, ...)`:
the per-unit "Syncing {name}... (i/total)" message, the per-unit
"Error syncing {name}: {msg}" message, and the final "Done! Synced N" line. -/
inductive ProgressEvent where
  | syncing (name : String) (i total : Nat) : ProgressEvent
  | error (name : String) (msg : String) : ProgressEvent
  | done (n : Nat) : ProgressEvent
  deriving Repr, DecidableEq

/-- Result of a sync batch: final manifest file state, the `synced_skills`
accumulator (in sync order), and the emitted progress events in order. -/
structure SyncResult where
  state : FileState
  synced : List String
  events : List ProgressEvent

/-- The `for i, status in enumerate(skills_to_sync, 1)` loop of
`SkillSyncApp.sync_selected`. `download` is the oracle for the fallible
remove-and-download part of the try block (`shutil.rmtree` +
`download_skill`): it either returns the downloaded file list or raises with a
message. A raise anywhere in the try block emits an error event and the loop
continues with the manifest state unchanged. -/
def sync_loop (download : String → Except String (List String))
    (remote_sha now : String) (total : Nat) :
    List SyncStatus → Nat → FileState → SyncResult
  | [], _, st => ⟨st, [], []⟩
  | s :: rest, i, st =>
    let name := s.skill.name
    match download name with
    | .error msg =>
      let r := sync_loop download remote_sha now total rest (i + 1) st
      ⟨r.state, r.synced, .syncing name i total :: .error name msg :: r.events⟩
    | .ok files =>
      match record_sync name remote_sha files now st with
      | .error e =>
        let r := sync_loop download remote_sha now total rest (i + 1) st
        ⟨r.state, r.synced, .syncing name i total :: .error name (errMsg e) :: r.events⟩
      | .ok st1 =>
        let r := sync_loop download remote_sha now total rest (i + 1) st1
        ⟨r.state, name :: r.synced, .syncing name i total :: r.events⟩

/-- `SkillSyncApp.sync_selected`: filter the status rows to the selected names
(keeping status order), run the loop from index 1, and finish with the
"Done! Synced {len(self.synced_skills)} skill(s)" event. -/
def sync_selected (statuses : List SyncStatus) (selected : List String)
    (download : String → Except String (List String))
    (remote_sha now : String) (st : FileState) : SyncResult :=
  let skills_to_sync := statuses.filter (fun s => selected.contains s.skill.name)
  let total := skills_to_sync.length
  let r := sync_loop download remote_sha now total skills_to_sync 1 st
  ⟨r.state, r.synced, r.events ++ [.done r.synced.length]⟩

/-- Names carried by the "Syncing ..." events, in emission order. -/
def syncing_names (events : List ProgressEvent) : List String :=
  events.filterMap (fun e =>
    match e with
    | .syncing name _ _ => some name
    | _ => none)

/-- Whether the download oracle succeeds for a unit. -/
def download_ok (download : String → Except String (List String)) (name : String) :
    Bool :=
  match download name with
  | .ok _ => true
  | .error _ => false

/-- The manifest's unit table as read back from the file state: the "skills"
object of the parsed document (the empty table for an absent file), `none` for
a corrupt or shape-violating file. -/
def manifest_units (st : FileState) : Option (List (String × Json)) :=
  match st with
  | .absent => some []
  | .corrupt => none
  | .parsed (.obj fields) =>
    match jlookup fields "skills" with
    | some (.obj units) => some units
    | _ => none
  | .parsed _ => none

/-- The manifest entry recorded for one unit, as read back from the file
state. -/
def lookup_unit (st : FileState) (name : String) : Option Json :=
  match manifest_units st with
  | some units => jlookup units name
  | none => none

/-- The manifest file is absent or holds a parsed object with a "skills"
object: the shapes under which the read-modify-write cycle succeeds. -/
def WfState (st : FileState) : Prop :=
  ∃ fields units, get_manifest st = .ok (.obj fields) ∧
    jlookup fields "skills" = some (.obj units)

/-! ### Association-list lemmas -/

theorem jlookup_setKey_self (l : List (String × Json)) (key : String) (v : Json) :
    jlookup (setKey l key v) key = some v := by
  induction l with
  | nil => simp [setKey, jlookup]
  | cons kw rest ih =>
    obtain ⟨k, w⟩ := kw
    by_cases h : k = key <;> simp [setKey, jlookup, h, ih]

theorem jlookup_setKey_of_ne (l : List (String × Json)) (key k2 : String) (v : Json)
    (h : k2 ≠ key) : jlookup (setKey l key v) k2 = jlookup l k2 := by
  induction l with
  | nil => simp [setKey, jlookup, Ne.symm h]
  | cons kw rest ih =>
    obtain ⟨k, w⟩ := kw
    by_cases hk : k = key
    · subst hk
      simp [setKey, jlookup, Ne.symm h]
    · simp [setKey, jlookup, hk, ih]

theorem mem_setKey_of_ne (l : List (String × Json)) (key : String) (v : Json)
    (p : String × Json) (hp : p ∈ l) (hne : p.1 ≠ key) : p ∈ setKey l key v := by
  induction l with
  | nil => simp at hp
  | cons kw rest ih =>
    obtain ⟨k, w⟩ := kw
    by_cases hk : k = key
    · subst hk
      rcases List.mem_cons.mp hp with h | h
      · rw [h] at hne
        exact absurd rfl hne
      · simp only [setKey, if_pos rfl]
        exact List.mem_cons_of_mem _ h
    · rcases List.mem_cons.mp hp with h | h
      · simp only [setKey, if_neg hk]
        rw [h]
        exact List.mem_cons_self _ _
      · simp only [setKey, if_neg hk]
        exact List.mem_cons_of_mem _ (ih h)

theorem map_fst_setKey (l : List (String × Json)) (key : String) (v : Json) :
    (setKey l key v).map Prod.fst =
      if key ∈ l.map Prod.fst then l.map Prod.fst else l.map Prod.fst ++ [key] := by
  induction l with
  | nil => simp [setKey]
  | cons kw rest ih =>
    obtain ⟨k, w⟩ := kw
    by_cases h : k = key
    · subst h
      simp [setKey]
    · simp only [setKey, if_neg h, List.map_cons, ih]
      have hne : ¬ key = k := fun e => h e.symm
      by_cases hmem : key ∈ rest.map Prod.fst <;>
        simp [List.mem_cons, hne, hmem]

theorem nodup_keys_setKey (l : List (String × Json)) (key : String) (v : Json)
    (h : (l.map Prod.fst).Nodup) : ((setKey l key v).map Prod.fst).Nodup := by
  rw [map_fst_setKey]
  by_cases hmem : key ∈ l.map Prod.fst
  · simpa [hmem] using h
  · rw [if_neg hmem, List.nodup_append]
    exact ⟨h, List.nodup_singleton key, by simpa using hmem⟩

theorem count_keys_setKey (l : List (String × Json)) (key : String) (v : Json)
    (h : (l.map Prod.fst).Nodup) :
    ((setKey l key v).map Prod.fst).count key = 1 := by
  rw [map_fst_setKey]
  by_cases hmem : key ∈ l.map Prod.fst
  · simpa [hmem] using List.count_eq_one_of_mem h hmem
  · simp [hmem, List.count_append, List.count_eq_zero_of_not_mem hmem]

/-! ### record_sync characterization -/

theorem record_sync_eq (fields units : List (String × Json))
    (name sha : String) (files : List String) (now : String) (st : FileState)
    (h1 : get_manifest st = .ok (.obj fields))
    (h2 : jlookup fields "skills" = some (.obj units)) :
    record_sync name sha files now st =
      .ok (.parsed (.obj (setKey fields "skills"
        (.obj (setKey units name (mkEntry sha now files)))))) := by
  simp [record_sync, h1, h2]

theorem lookup_unit_parsed (fields : List (String × Json)) (units : List (String × Json))
    (name : String) (h : jlookup fields "skills" = some (.obj units)) :
    lookup_unit (.parsed (.obj fields)) name = jlookup units name := by
  simp [lookup_unit, manifest_units, h]

/-- Under a well-formed file state, `record_sync` succeeds, keeps the state
well formed, stores the new entry for the named unit, and leaves every other
unit's entry exactly as it was. -/
theorem record_sync_spec (name sha : String) (files : List String) (now : String)
    (st : FileState) (h : WfState st) :
    ∃ st1, record_sync name sha files now st = .ok st1 ∧ WfState st1 ∧
      lookup_unit st1 name = some (mkEntry sha now files) ∧
      ∀ m, m ≠ name → lookup_unit st1 m = lookup_unit st m := by
  obtain ⟨fields, units, h1, h2⟩ := h
  refine ⟨.parsed (.obj (setKey fields "skills"
    (.obj (setKey units name (mkEntry sha now files))))),
    record_sync_eq fields units name sha files now st h1 h2, ?_, ?_, ?_⟩
  · exact ⟨_, _, rfl, jlookup_setKey_self fields "skills" _⟩
  · rw [lookup_unit_parsed _ _ _ (jlookup_setKey_self fields "skills" _)]
    exact jlookup_setKey_self units name _
  · intro m hm
    rw [lookup_unit_parsed _ _ _ (jlookup_setKey_self fields "skills" _),
      jlookup_setKey_of_ne units name m _ hm]
    cases st with
    | absent =>
      simp [get_manifest] at h1
      subst h1
      simp [jlookup] at h2
      simp [lookup_unit, manifest_units, ← h2]
    | corrupt => simp [get_manifest] at h1
    | parsed j =>
      simp [get_manifest] at h1
      subst h1
      simp [lookup_unit, manifest_units, h2]

/-! ### Download-walk lemmas -/

theorem download_directory_append (l1 l2 : List RemoteEntry) :
    download_directory (l1 ++ l2) = download_directory l1 ++ download_directory l2 := by
  induction l1 with
  | nil => simp [download_directory]
  | cons e rest ih =>
    cases e <;> simp [download_directory, ih]

theorem download_directory_length (l : List RemoteEntry) :
    (download_directory l).length = listing_file_count l := by
  induction l using download_directory.induct with
  | case1 => simp [download_directory, listing_file_count]
  | case2 name path rest ih =>
    simp [download_directory, listing_file_count, ih, Nat.add_comm]
  | case3 name path entries rest ih1 ih2 =>
    simp [download_directory, listing_file_count, ih1, ih2]
  | case4 name path rest ih =>
    simp [download_directory, listing_file_count, ih]

/-! ### Status-resolution lemmas -/

theorem statusFor_skill_eq (sk : Skill) (info : Option Json) (rev : String)
    (s : SyncStatus) (h : statusFor sk info rev = .ok s) : s.skill = sk := by
  cases info with
  | none =>
    simp only [statusFor, Except.ok.injEq] at h
    rw [← h]
  | some j =>
    simp only [statusFor] at h
    cases hc : entry_commit_sha j with
    | error e => rw [hc] at h; simp at h
    | ok str =>
      rw [hc] at h
      by_cases ht : str.take 7 = rev.take 7 <;>
        simp only [ht, if_pos, if_neg, ne_eq, not_true_eq_false, not_false_eq_true,
          if_true, if_false, Except.ok.injEq] at h <;> rw [← h]

theorem status_list_ok (ls : Json) (rev : String) :
    ∀ (skills : List Skill) (out : List SyncStatus),
      status_list ls rev skills = .ok out →
      out.length = skills.length ∧
      ∀ i (h1 : i < skills.length) (h2 : i < out.length),
        ∃ info, lookupUnitInfo ls (skills.get ⟨i, h1⟩).name = .ok info ∧
          statusFor (skills.get ⟨i, h1⟩) info rev = .ok (out.get ⟨i, h2⟩) := by
  intro skills
  induction skills with
  | nil =>
    intro out h
    simp only [status_list, Except.ok.injEq] at h
    subst h
    exact ⟨rfl, fun i h1 _ => absurd h1 (Nat.not_lt_zero i)⟩
  | cons sk rest ih =>
    intro out h
    simp only [status_list] at h
    cases hlu : lookupUnitInfo ls sk.name with
    | error e => rw [hlu] at h; simp at h
    | ok info =>
      rw [hlu] at h
      dsimp only at h
      cases hsf : statusFor sk info rev with
      | error e => rw [hsf] at h; simp at h
      | ok s =>
        rw [hsf] at h
        dsimp only at h
        cases hrest : status_list ls rev rest with
        | error e => rw [hrest] at h; simp at h
        | ok others =>
          rw [hrest] at h
          simp only [Except.ok.injEq] at h
          subst h
          obtain ⟨hlen, hpt⟩ := ih others hrest
          refine ⟨by simpa using hlen, ?_⟩
          intro i h1 h2
          cases i with
          | zero => exact ⟨info, hlu, hsf⟩
          | succ n =>
            exact hpt n (Nat.lt_of_succ_lt_succ h1) (Nat.lt_of_succ_lt_succ h2)

theorem status_list_map_skill (ls : Json) (rev : String) :
    ∀ (skills : List Skill) (out : List SyncStatus),
      status_list ls rev skills = .ok out →
      out.map (fun s => s.skill) = skills := by
  intro skills
  induction skills with
  | nil =>
    intro out h
    simp only [status_list, Except.ok.injEq] at h
    subst h
    rfl
  | cons sk rest ih =>
    intro out h
    simp only [status_list] at h
    cases hlu : lookupUnitInfo ls sk.name with
    | error e => rw [hlu] at h; simp at h
    | ok info =>
      rw [hlu] at h
      dsimp only at h
      cases hsf : statusFor sk info rev with
      | error e => rw [hsf] at h; simp at h
      | ok s =>
        rw [hsf] at h
        dsimp only at h
        cases hrest : status_list ls rev rest with
        | error e => rw [hrest] at h; simp at h
        | ok others =>
          rw [hrest] at h
          simp only [Except.ok.injEq] at h
          subst h
          simp [statusFor_skill_eq sk info rev s hsf, ih others hrest]

/-! ### Sync-worker lemmas -/

theorem syncing_names_nil : syncing_names [] = [] := rfl

theorem syncing_names_syncing (name : String) (i total : Nat)
    (evs : List ProgressEvent) :
    syncing_names (.syncing name i total :: evs) = name :: syncing_names evs := rfl

theorem syncing_names_error (name msg : String) (evs : List ProgressEvent) :
    syncing_names (.error name msg :: evs) = syncing_names evs := rfl

theorem syncing_names_done (n : Nat) (evs : List ProgressEvent) :
    syncing_names (.done n :: evs) = syncing_names evs := rfl

theorem syncing_names_append (evs1 evs2 : List ProgressEvent) :
    syncing_names (evs1 ++ evs2) = syncing_names evs1 ++ syncing_names evs2 := by
  simp [syncing_names]

/-- Full behaviour of the worker loop over a batch of distinct-named units,
starting from a well-formed manifest state: the state stays well formed; the
success list is exactly the units whose download succeeded, in batch order; a
"Syncing" event is emitted for every unit of the batch in order; units outside
the batch keep their manifest entries; a unit whose download succeeded ends
with the freshly recorded entry; a unit whose download raised keeps its
original entry. -/
theorem sync_loop_spec (download : String → Except String (List String))
    (sha now : String) (total : Nat) :
    ∀ (batch : List SyncStatus) (i : Nat) (st : FileState),
      WfState st → (batch.map (fun s => s.skill.name)).Nodup →
      WfState (sync_loop download sha now total batch i st).state ∧
      (sync_loop download sha now total batch i st).synced =
        (batch.filter (fun s => download_ok download s.skill.name)).map
          (fun s => s.skill.name) ∧
      syncing_names (sync_loop download sha now total batch i st).events =
        batch.map (fun s => s.skill.name) ∧
      (∀ n, n ∉ batch.map (fun s => s.skill.name) →
        lookup_unit (sync_loop download sha now total batch i st).state n =
          lookup_unit st n) ∧
      (∀ s ∈ batch, ∀ files, download s.skill.name = .ok files →
        lookup_unit (sync_loop download sha now total batch i st).state
          s.skill.name = some (mkEntry sha now files)) ∧
      (∀ s ∈ batch, ∀ msg, download s.skill.name = .error msg →
        lookup_unit (sync_loop download sha now total batch i st).state
          s.skill.name = lookup_unit st s.skill.name) := by
  intro batch
  induction batch with
  | nil =>
    intro i st hwf _
    refine ⟨hwf, rfl, rfl, fun n _ => rfl, ?_, ?_⟩
    · intro s hs; simp at hs
    · intro s hs; simp at hs
  | cons s rest ih =>
    intro i st hwf hnodup
    rw [List.map_cons, List.nodup_cons] at hnodup
    obtain ⟨hname, hrest⟩ := hnodup
    cases hd : download s.skill.name with
    | error msg =>
      obtain ⟨w1, w2, w3, w4, w5, w6⟩ := ih (i + 1) st hwf hrest
      have heq : sync_loop download sha now total (s :: rest) i st =
          ⟨(sync_loop download sha now total rest (i + 1) st).state,
           (sync_loop download sha now total rest (i + 1) st).synced,
           .syncing s.skill.name i total :: .error s.skill.name msg ::
             (sync_loop download sha now total rest (i + 1) st).events⟩ := by
        simp [sync_loop, hd]
      rw [heq]
      refine ⟨w1, ?_, ?_, ?_, ?_, ?_⟩
      · simpa [download_ok, hd] using w2
      · simp only [syncing_names_syncing, syncing_names_error, w3, List.map_cons]
      · intro n hn
        rw [List.map_cons, List.mem_cons] at hn
        push_neg at hn
        exact w4 n hn.2
      · intro s0 hs0 files hdl
        rcases List.mem_cons.mp hs0 with h | h
        · rw [h] at hdl
          rw [hdl] at hd
          exact absurd hd (by simp)
        · exact w5 s0 h files hdl
      · intro s0 hs0 msg0 hdl
        rcases List.mem_cons.mp hs0 with h | h
        · rw [h]
          exact w4 s.skill.name hname
        · exact w6 s0 h msg0 hdl
    | ok files =>
      obtain ⟨st1, hrec, hwf1, hset, hframe⟩ :=
        record_sync_spec s.skill.name sha files now st hwf
      obtain ⟨w1, w2, w3, w4, w5, w6⟩ := ih (i + 1) st1 hwf1 hrest
      have heq : sync_loop download sha now total (s :: rest) i st =
          ⟨(sync_loop download sha now total rest (i + 1) st1).state,
           s.skill.name :: (sync_loop download sha now total rest (i + 1) st1).synced,
           .syncing s.skill.name i total ::
             (sync_loop download sha now total rest (i + 1) st1).events⟩ := by
        simp [sync_loop, hd, hrec]
      rw [heq]
      refine ⟨w1, ?_, ?_, ?_, ?_, ?_⟩
      · simpa [download_ok, hd] using w2
      · simp only [syncing_names_syncing, w3, List.map_cons]
      · intro n hn
        rw [List.map_cons, List.mem_cons] at hn
        push_neg at hn
        rw [w4 n hn.2]
        exact hframe n hn.1
      · intro s0 hs0 files0 hdl
        rcases List.mem_cons.mp hs0 with h | h
        · rw [h] at hdl ⊢
          rw [hdl] at hd
          have hf : files0 = files := by
            simpa using hd
          rw [w4 s.skill.name hname, hset, hf]
        · exact w5 s0 h files0 hdl
      · intro s0 hs0 msg0 hdl
        rcases List.mem_cons.mp hs0 with h | h
        · rw [h] at hdl
          rw [hdl] at hd
          exact absurd hd (by simp)
        · have hne : s0.skill.name ≠ s.skill.name := by
            intro he
            apply hname
            rw [← he]
            exact List.mem_map_of_mem (fun x => x.skill.name) h
          rw [w6 s0 h msg0 hdl]
          exact hframe s0.skill.name hne

/-! ### Auxiliary facts for the claim theorems -/

theorem take7_eq_empty_iff (s : String) : s.take 7 = "" ↔ s = "" := by
  constructor
  · intro h
    have hd : (s.take 7).data = [] := by rw [h]
    rw [String.data_take] at hd
    have hn : s.data = [] := by
      rcases List.take_eq_nil_iff.mp hd with h7 | hnil
      · exact absurd h7 (by norm_num)
      · exact hnil
    exact String.ext hn
  · intro h
    subst h
    rfl

theorem status_list_empty_units (rev : String) :
    ∀ skills : List Skill,
      status_list (.obj []) rev skills =
        .ok (skills.map (fun sk =>
          { skill := sk, status := "new", local_sha := none,
            remote_sha := some (rev.take 7) })) := by
  intro skills
  induction skills with
  | nil => rfl
  | cons sk rest ih =>
    simp only [status_list, lookupUnitInfo, jlookup, statusFor, ih, List.map_cons]

/-! ### Claim theorems -/

/-- C8: when the manifest file does not exist, loading returns the empty
manifest `{"skills": {}}` and never raises; when the file exists but its
contents are not parseable, the parse failure propagates to the callers
(status resolution and sync recording) instead of being converted to an empty
manifest. -/
theorem c8_manifest_load (skills : List Skill) (rev name sha now : String)
    (files : List String) :
    get_manifest .absent = .ok (.obj [("skills", .obj [])]) ∧
    get_manifest .corrupt = .error .parseError ∧
    get_sync_status skills rev .corrupt = .error .parseError ∧
    record_sync name sha files now .corrupt = .error .parseError :=
  ⟨rfl, rfl, rfl, rfl⟩

/-- C2: for every unit with a manifest entry and every remote revision, status
resolution compares the 7-character prefixes of the stored and the remote
revision: equal prefixes resolve as unchanged ("ok"); unequal prefixes resolve
as updated ("update") with `local_sha` the stored 7-character prefix — or
`none` when the stored revision is the empty string — and `remote_sha` the
remote 7-character prefix. An empty stored revision resolves without raising. -/
theorem c2_revision_comparison (st : FileState) (fields units : List (String × Json))
    (sk : Skill) (info : Json) (s rev : String)
    (h1 : get_manifest st = .ok (.obj fields))
    (h2 : jlookup fields "skills" = some (.obj units))
    (h3 : jlookup units sk.name = some info)
    (h4 : entry_commit_sha info = .ok s) :
    (s.take 7 = rev.take 7 →
      get_sync_status [sk] rev st =
        .ok [{ skill := sk, status := "ok", local_sha := some (s.take 7),
               remote_sha := some (rev.take 7) }]) ∧
    (s.take 7 ≠ rev.take 7 →
      get_sync_status [sk] rev st =
        .ok [{ skill := sk, status := "update",
               local_sha := if s = "" then none else some (s.take 7),
               remote_sha := some (rev.take 7) }]) := by
  have hbase : get_sync_status [sk] rev st =
      status_list (.obj units) rev [sk] := by
    simp only [get_sync_status, h1, dictGet, h2, Option.getD_some]
  have hstep : status_list (.obj units) rev [sk] =
      match statusFor sk (some info) rev with
      | .error e => .error e
      | .ok s0 => .ok [s0] := by
    simp only [status_list, lookupUnitInfo, h3]
  constructor
  · intro heq
    rw [hbase, hstep]
    simp only [statusFor, h4, heq, ne_eq, not_true_eq_false, if_false, ite_false]
  · intro hne
    rw [hbase, hstep]
    simp only [statusFor, h4, ne_eq, hne, not_false_eq_true, if_true, ite_true,
      take7_eq_empty_iff]

/-- Witness for C2, both branches: a stored revision agreeing with the remote
one on the first 7 characters resolves as "ok" even though the tails differ,
and an empty stored revision resolves as "update" with no local prefix. -/
theorem c2_revision_comparison_witness :
    (entry_commit_sha (.obj [("commit_sha", .str "abcdefg111")]) = .ok "abcdefg111" ∧
      get_sync_status [{ name := "pdf" }] "abcdefg999"
        (.parsed (.obj [("skills",
          .obj [("pdf", .obj [("commit_sha", .str "abcdefg111")])])])) =
        .ok [{ skill := { name := "pdf" }, status := "ok",
               local_sha := some "abcdefg", remote_sha := some "abcdefg" }]) ∧
    (entry_commit_sha (.obj [("commit_sha", .str "")]) = .ok "" ∧
      get_sync_status [{ name := "docx" }] "abcdefg999"
        (.parsed (.obj [("skills",
          .obj [("docx", .obj [("commit_sha", .str "")])])])) =
        .ok [{ skill := { name := "docx" }, status := "update",
               local_sha := none, remote_sha := some "abcdefg" }]) := by
  constructor
  · refine ⟨rfl, ?_⟩
    have h := (c2_revision_comparison
      (.parsed (.obj [("skills", .obj [("pdf", .obj [("commit_sha", .str "abcdefg111")])])]))
      [("skills", .obj [("pdf", .obj [("commit_sha", .str "abcdefg111")])])]
      [("pdf", .obj [("commit_sha", .str "abcdefg111")])]
      { name := "pdf" } (.obj [("commit_sha", .str "abcdefg111")])
      "abcdefg111" "abcdefg999" rfl (by rfl) (by rfl) rfl).1 (by decide)
    simpa using h
  · refine ⟨rfl, ?_⟩
    have h := (c2_revision_comparison
      (.parsed (.obj [("skills", .obj [("docx", .obj [("commit_sha", .str "")])])]))
      [("skills", .obj [("docx", .obj [("commit_sha", .str "")])])]
      [("docx", .obj [("commit_sha", .str "")])]
      { name := "docx" } (.obj [("commit_sha", .str "")])
      "" "abcdefg999" rfl (by rfl) (by rfl) rfl).2 (by decide)
    simpa using h

/-- C5: a unit whose name is absent from the manifest's unit table resolves as
"new" with no local prefix and the remote revision's 7-character prefix,
whatever the remote revision value. -/
theorem c5_new_unit (st : FileState) (fields units : List (String × Json))
    (skills : List Skill) (rev : String) (out : List SyncStatus)
    (h1 : get_manifest st = .ok (.obj fields))
    (h2 : jlookup fields "skills" = some (.obj units))
    (h3 : get_sync_status skills rev st = .ok out) :
    ∀ i (hi : i < skills.length) (ho : i < out.length),
      jlookup units (skills.get ⟨i, hi⟩).name = none →
      out.get ⟨i, ho⟩ =
        { skill := skills.get ⟨i, hi⟩, status := "new", local_sha := none,
          remote_sha := some (rev.take 7) } := by
  intro i hi ho habs
  have hsl : status_list (.obj units) rev skills = .ok out := by
    rw [← h3]
    simp only [get_sync_status, h1, dictGet, h2, Option.getD_some]
  obtain ⟨-, hpt⟩ := status_list_ok (.obj units) rev skills out hsl
  obtain ⟨info, hlu, hsf⟩ := hpt i hi ho
  simp only [lookupUnitInfo, habs, Except.ok.injEq] at hlu
  rw [← hlu] at hsf
  simp only [statusFor, Except.ok.injEq] at hsf
  exact hsf.symm

/-- Witness for C5: with a manifest that only knows "pdf", the unit "docx"
resolves as "new". -/
theorem c5_new_unit_witness :
    get_sync_status [{ name := "docx" }] "abcdef1234567"
      (.parsed (.obj [("skills", .obj [("pdf", .obj [])])])) =
      .ok [{ skill := { name := "docx" }, status := "new", local_sha := none,
             remote_sha := some "abcdef1" }] ∧
    jlookup [("pdf", .obj [])] "docx" = none := by
  have hres : get_sync_status [{ name := "docx" }] "abcdef1234567"
      (.parsed (.obj [("skills", .obj [("pdf", .obj [])])])) =
      .ok [{ skill := { name := "docx" }, status := "new", local_sha := none,
             remote_sha := some ("abcdef1234567".take 7) }] := by
    simp [get_sync_status, get_manifest, dictGet, jlookup, status_list,
      lookupUnitInfo, statusFor]
  have hpt := c5_new_unit
    (.parsed (.obj [("skills", .obj [("pdf", .obj [])])]))
    [("skills", .obj [("pdf", .obj [])])] [("pdf", .obj [])]
    [{ name := "docx" }] "abcdef1234567"
    [{ skill := { name := "docx" }, status := "new", local_sha := none,
       remote_sha := some ("abcdef1234567".take 7) }]
    rfl (by rfl) hres 0 (by decide) (by decide) (by rfl)
  refine ⟨?_, by rfl⟩
  rw [hres]
  simp only [List.get] at hpt
  simp [hpt]
  decide

/-- C6: status resolution preserves the input ordering: whenever it succeeds,
the output sequence, projected to its units, is exactly the input sequence of
units (hence also of the same length), for any input permutation, manifest and
remote revision. -/
theorem c6_order_preservation (skills : List Skill) (rev : String) (st : FileState)
    (out : List SyncStatus) (h : get_sync_status skills rev st = .ok out) :
    out.map (fun s => s.skill) = skills ∧ out.length = skills.length := by
  have hmap : out.map (fun s => s.skill) = skills := by
    cases hm : get_manifest st with
    | error e => rw [get_sync_status, hm] at h; simp at h
    | ok manifest =>
      rw [get_sync_status, hm] at h
      dsimp only at h
      cases hd : dictGet manifest "skills" (.obj []) with
      | error e => rw [hd] at h; simp at h
      | ok ls =>
        rw [hd] at h
        exact status_list_map_skill ls rev skills out h
  refine ⟨hmap, ?_⟩
  rw [← hmap]
  simp

/-- Witness for C6: a two-unit input in non-alphabetical order is resolved in
exactly that order. -/
theorem c6_order_preservation_witness :
    get_sync_status [{ name := "pdf" }, { name := "docx" }] "abcdef1234567"
      .absent =
      .ok [{ skill := { name := "pdf" }, status := "new", local_sha := none,
             remote_sha := some "abcdef1" },
           { skill := { name := "docx" }, status := "new", local_sha := none,
             remote_sha := some "abcdef1" }] ∧
    ([{ skill := { name := "pdf" }, status := "new", local_sha := none,
        remote_sha := some "abcdef1" },
      { skill := { name := "docx" }, status := "new", local_sha := none,
        remote_sha := some "abcdef1" }] : List SyncStatus).map (fun s => s.skill) =
      [{ name := "pdf" }, { name := "docx" }] := by
  have hres : get_sync_status [{ name := "pdf" }, { name := "docx" }]
      "abcdef1234567" .absent =
      .ok [{ skill := { name := "pdf" }, status := "new", local_sha := none,
             remote_sha := some "abcdef1" },
           { skill := { name := "docx" }, status := "new", local_sha := none,
             remote_sha := some "abcdef1" }] := by
    simp [get_sync_status, get_manifest, dictGet, jlookup, status_list,
      lookupUnitInfo, statusFor]
    decide
  exact ⟨hres,
    (c6_order_preservation [{ name := "pdf" }, { name := "docx" }]
      "abcdef1234567" .absent _ hres).1⟩

/-- C10: if the manifest file parses to an object that lacks the top-level
"skills" key, `record_sync` raises a key-lookup error (so nothing is written),
even though status resolution on the same file succeeds and classifies every
unit as "new"; and whenever `record_sync` succeeds, the file was either absent
or parsed to an object containing the "skills" key. -/
theorem c10_record_sync_shape (fields : List (String × Json))
    (name sha now rev : String) (files : List String) (skills : List Skill)
    (hmiss : jlookup fields "skills" = none) :
    record_sync name sha files now (.parsed (.obj fields)) = .error .keyError ∧
    get_sync_status skills rev (.parsed (.obj fields)) =
      .ok (skills.map (fun sk =>
        { skill := sk, status := "new", local_sha := none,
          remote_sha := some (rev.take 7) })) ∧
    (∀ (st st2 : FileState) (n c nw : String) (fs : List String),
      record_sync n c fs nw st = .ok st2 →
      st = .absent ∨ ∃ fs2 us, st = .parsed (.obj fs2) ∧
        jlookup fs2 "skills" = some (.obj us)) := by
  refine ⟨?_, ?_, ?_⟩
  · simp only [record_sync, get_manifest, hmiss]
  · simp only [get_sync_status, get_manifest, dictGet, hmiss, Option.getD_none,
      status_list_empty_units]
  · intro st st2 n c nw fs h
    cases st with
    | absent => exact Or.inl rfl
    | corrupt => simp [record_sync, get_manifest] at h
    | parsed j =>
      cases j with
      | obj fs2 =>
        cases hl : jlookup fs2 "skills" with
        | none => rw [record_sync, get_manifest] at h; simp [hl] at h
        | some v =>
          cases v with
          | obj us => exact Or.inr ⟨fs2, us, rfl, hl⟩
          | null => rw [record_sync, get_manifest] at h; simp [hl] at h
          | bool b => rw [record_sync, get_manifest] at h; simp [hl] at h
          | num n0 => rw [record_sync, get_manifest] at h; simp [hl] at h
          | str s0 => rw [record_sync, get_manifest] at h; simp [hl] at h
          | arr a0 => rw [record_sync, get_manifest] at h; simp [hl] at h
      | null => simp [record_sync, get_manifest] at h
      | bool b => simp [record_sync, get_manifest] at h
      | num n0 => simp [record_sync, get_manifest] at h
      | str s0 => simp [record_sync, get_manifest] at h
      | arr a0 => simp [record_sync, get_manifest] at h

/-- Witness for C10: a parsed manifest `{"legacy": {}}` (no "skills" key)
makes `record_sync` raise a key error while status resolution still returns
"new" for the one unit asked about. -/
theorem c10_record_sync_shape_witness :
    jlookup [("legacy", .obj [])] "skills" = none ∧
    record_sync "pdf" "abcdef1234567" ["SKILL.md"] "t0"
      (.parsed (.obj [("legacy", .obj [])])) = .error .keyError ∧
    get_sync_status [{ name := "pdf" }] "abcdef1234567"
      (.parsed (.obj [("legacy", .obj [])])) =
      .ok [{ skill := { name := "pdf" }, status := "new", local_sha := none,
             remote_sha := some ("abcdef1234567".take 7) }] := by
  have h := c10_record_sync_shape [("legacy", .obj [])] "pdf" "abcdef1234567"
    "t0" "abcdef1234567" ["SKILL.md"] [{ name := "pdf" }] (by rfl)
  exact ⟨by rfl, h.1, h.2.1⟩

/-- C9: `record_sync` on a persisted manifest object with a "skills" table
changes only the entry keyed by the synced unit: the value of every other
top-level key is unchanged, every top-level pair other than "skills" present
before the call is still present afterwards (unknown keys are tolerated and
never stripped), every other unit's entry is unchanged, and the synced unit's
entry is the freshly recorded one. -/
theorem c9_record_sync_frame (fields units : List (String × Json))
    (name sha now : String) (files : List String)
    (h : jlookup fields "skills" = some (.obj units)) :
    ∃ fields2 units2,
      record_sync name sha files now (.parsed (.obj fields)) =
        .ok (.parsed (.obj fields2)) ∧
      jlookup fields2 "skills" = some (.obj units2) ∧
      (∀ k, k ≠ "skills" → jlookup fields2 k = jlookup fields k) ∧
      (∀ p ∈ fields, p.1 ≠ "skills" → p ∈ fields2) ∧
      (∀ m, m ≠ name → jlookup units2 m = jlookup units m) ∧
      jlookup units2 name = some (mkEntry sha now files) := by
  refine ⟨setKey fields "skills" (.obj (setKey units name (mkEntry sha now files))),
    setKey units name (mkEntry sha now files),
    record_sync_eq fields units name sha files now _ rfl h,
    jlookup_setKey_self fields "skills" _, ?_, ?_, ?_,
    jlookup_setKey_self units name _⟩
  · intro k hk
    exact jlookup_setKey_of_ne fields "skills" k _ hk
  · intro p hp hne
    exact mem_setKey_of_ne fields "skills" _ p hp hne
  · intro m hm
    exact jlookup_setKey_of_ne units name m _ hm

/-- Witness for C9: recording "pdf" into a manifest holding an unknown
top-level key "futureFlag" and an existing entry for "docx" keeps both
untouched and adds the "pdf" entry. -/
theorem c9_record_sync_frame_witness :
    jlookup [("futureFlag", .bool true),
      ("skills", .obj [("docx", .obj [("commit_sha", .str "0000000")])])]
      "skills" = some (.obj [("docx", .obj [("commit_sha", .str "0000000")])]) ∧
    ∃ fields2 units2,
      record_sync "pdf" "abcdef1234567" ["SKILL.md"] "t0"
        (.parsed (.obj [("futureFlag", .bool true),
          ("skills", .obj [("docx", .obj [("commit_sha", .str "0000000")])])])) =
        .ok (.parsed (.obj fields2)) ∧
      jlookup fields2 "skills" = some (.obj units2) ∧
      (∀ k, k ≠ "skills" → jlookup fields2 k =
        jlookup [("futureFlag", .bool true),
          ("skills", .obj [("docx", .obj [("commit_sha", .str "0000000")])])] k) ∧
      (∀ p ∈ [(("futureFlag" : String), Json.bool true),
        ("skills", Json.obj [("docx", .obj [("commit_sha", .str "0000000")])])],
        p.1 ≠ "skills" → p ∈ fields2) ∧
      (∀ m, m ≠ "pdf" → jlookup units2 m =
        jlookup [("docx", .obj [("commit_sha", .str "0000000")])] m) ∧
      jlookup units2 "pdf" =
        some (mkEntry "abcdef1234567" "t0" ["SKILL.md"]) :=
  ⟨rfl, c9_record_sync_frame
    [("futureFlag", .bool true),
     ("skills", .obj [("docx", .obj [("commit_sha", .str "0000000")])])]
    [("docx", .obj [("commit_sha", .str "0000000")])]
    "pdf" "abcdef1234567" "t0" ["SKILL.md"] rfl⟩

/-- C4: after `record_sync(name, revision, files)` on a well-formed manifest,
the unit table holds exactly one entry for that name, carrying the full
untruncated session revision; re-resolving that unit against the same session
revision yields "ok" (unchanged), and any unit still absent from the table
yields "new". -/
theorem c4_sync_then_resolve (st : FileState) (fields units : List (String × Json))
    (sk : Skill) (rev now : String) (files : List String)
    (h1 : get_manifest st = .ok (.obj fields))
    (h2 : jlookup fields "skills" = some (.obj units))
    (h3 : (units.map Prod.fst).Nodup) :
    ∃ fields2 units2,
      record_sync sk.name rev files now st = .ok (.parsed (.obj fields2)) ∧
      jlookup fields2 "skills" = some (.obj units2) ∧
      (units2.map Prod.fst).count sk.name = 1 ∧
      jlookup units2 sk.name = some (mkEntry rev now files) ∧
      entry_commit_sha (mkEntry rev now files) = .ok rev ∧
      get_sync_status [sk] rev (.parsed (.obj fields2)) =
        .ok [{ skill := sk, status := "ok", local_sha := some (rev.take 7),
               remote_sha := some (rev.take 7) }] ∧
      (∀ sk2 : Skill, jlookup units2 sk2.name = none →
        get_sync_status [sk2] rev (.parsed (.obj fields2)) =
          .ok [{ skill := sk2, status := "new", local_sha := none,
                 remote_sha := some (rev.take 7) }]) := by
  refine ⟨setKey fields "skills" (.obj (setKey units sk.name (mkEntry rev now files))),
    setKey units sk.name (mkEntry rev now files),
    record_sync_eq fields units sk.name rev files now st h1 h2,
    jlookup_setKey_self fields "skills" _,
    count_keys_setKey units sk.name _ h3,
    jlookup_setKey_self units sk.name _, rfl, ?_, ?_⟩
  · simp [get_sync_status, get_manifest, dictGet,
      jlookup_setKey_self fields "skills" _, status_list, lookupUnitInfo,
      jlookup_setKey_self units sk.name _, statusFor, mkEntry,
      entry_commit_sha, jlookup]
  · intro sk2 habs
    simp only [get_sync_status, get_manifest, dictGet,
      jlookup_setKey_self fields "skills" _, Option.getD_some, status_list,
      lookupUnitInfo, habs, statusFor]

/-- Witness for C4: the concrete scenario of the spec — empty manifest, sync
"pdf" at revision "abcdef1234567"; the entry carries the full revision,
"pdf" re-resolves as "ok" and "docx" still resolves as "new". -/
theorem c4_sync_then_resolve_witness :
    get_manifest .absent = .ok (.obj [("skills", .obj [])]) ∧
    ∃ fields2 units2,
      record_sync "pdf" "abcdef1234567" ["SKILL.md", "example.py"] "t0" .absent =
        .ok (.parsed (.obj fields2)) ∧
      jlookup fields2 "skills" = some (.obj units2) ∧
      (units2.map Prod.fst).count "pdf" = 1 ∧
      jlookup units2 "pdf" =
        some (mkEntry "abcdef1234567" "t0" ["SKILL.md", "example.py"]) ∧
      entry_commit_sha (mkEntry "abcdef1234567" "t0" ["SKILL.md", "example.py"]) =
        .ok "abcdef1234567" ∧
      get_sync_status [{ name := "pdf" }] "abcdef1234567" (.parsed (.obj fields2)) =
        .ok [{ skill := { name := "pdf" }, status := "ok",
               local_sha := some ("abcdef1234567".take 7),
               remote_sha := some ("abcdef1234567".take 7) }] ∧
      (∀ sk2 : Skill, jlookup units2 sk2.name = none →
        get_sync_status [sk2] "abcdef1234567" (.parsed (.obj fields2)) =
          .ok [{ skill := sk2, status := "new", local_sha := none,
                 remote_sha := some ("abcdef1234567".take 7) }]) :=
  ⟨rfl, c4_sync_then_resolve .absent [("skills", .obj [])] []
    { name := "pdf" } "abcdef1234567" "t0" ["SKILL.md", "example.py"]
    rfl rfl (by decide)⟩

/-- Unconditionally, the worker loop emits one "Syncing" event per batch
element, in batch order, whatever the download and record outcomes. -/
theorem sync_loop_syncing_names (download : String → Except String (List String))
    (sha now : String) (total : Nat) :
    ∀ (batch : List SyncStatus) (i : Nat) (st : FileState),
      syncing_names (sync_loop download sha now total batch i st).events =
        batch.map (fun s => s.skill.name) := by
  intro batch
  induction batch with
  | nil => intro i st; rfl
  | cons s rest ih =>
    intro i st
    cases hd : download s.skill.name with
    | error msg =>
      simp only [sync_loop, hd, syncing_names_syncing, syncing_names_error,
        ih, List.map_cons]
    | ok files =>
      cases hrec : record_sync s.skill.name sha files now st with
      | error e =>
        simp only [sync_loop, hd, hrec, syncing_names_syncing,
          syncing_names_error, ih, List.map_cons]
      | ok st1 =>
        simp only [sync_loop, hd, hrec, syncing_names_syncing, ih,
          List.map_cons]

/-- C7: the worker processes exactly the status rows whose unit name is
selected, in status order: its "Syncing" events name exactly the selected
subsequence of the status rows, that subsequence's ordering is a subsequence
of the full status ordering (selection never reorders), and a selected name
matching no status row leaves the whole batch result unchanged. -/
theorem c7_selection (statuses : List SyncStatus) (selected : List String)
    (download : String → Except String (List String)) (sha now : String)
    (st : FileState) :
    syncing_names (sync_selected statuses selected download sha now st).events =
      (statuses.filter (fun s => selected.contains s.skill.name)).map
        (fun s => s.skill.name) ∧
    List.Sublist
      ((statuses.filter (fun s => selected.contains s.skill.name)).map
        (fun s => s.skill.name))
      (statuses.map (fun s => s.skill.name)) ∧
    (∀ x, x ∉ statuses.map (fun s => s.skill.name) →
      sync_selected statuses (x :: selected) download sha now st =
        sync_selected statuses selected download sha now st) := by
  refine ⟨?_, (List.filter_sublist statuses).map _, ?_⟩
  · simp only [sync_selected, syncing_names_append, sync_loop_syncing_names]
    simp [syncing_names]
  · intro x hx
    have hfilter : statuses.filter (fun s => (x :: selected).contains s.skill.name) =
        statuses.filter (fun s => selected.contains s.skill.name) := by
      apply List.filter_congr
      intro s hs
      have hne : s.skill.name ≠ x := by
        intro he
        apply hx
        rw [← he]
        exact List.mem_map_of_mem (fun s0 => s0.skill.name) hs
      simp [List.contains_cons, hne]
    simp only [sync_selected, hfilter]

/-- Witness for C7: a selected name not present among the status rows is
skipped without error and without affecting the batch. -/
theorem c7_selection_witness :
    "ghost" ∉ ([{ skill := { name := "pdf" }, status := "new" },
      { skill := { name := "docx" }, status := "new" }] :
        List SyncStatus).map (fun s => s.skill.name) ∧
    sync_selected
      [{ skill := { name := "pdf" }, status := "new" },
       { skill := { name := "docx" }, status := "new" }]
      ["ghost", "pdf"] (fun n => .ok [n ++ "/SKILL.md"]) "abcdef1234567" "t0"
      .absent =
    sync_selected
      [{ skill := { name := "pdf" }, status := "new" },
       { skill := { name := "docx" }, status := "new" }]
      ["pdf"] (fun n => .ok [n ++ "/SKILL.md"]) "abcdef1234567" "t0" .absent := by
  refine ⟨by decide, ?_⟩
  exact (c7_selection
    [{ skill := { name := "pdf" }, status := "new" },
     { skill := { name := "docx" }, status := "new" }]
    ["pdf"] (fun n => .ok [n ++ "/SKILL.md"]) "abcdef1234567" "t0" .absent).2.2
    "ghost" (by decide)

/-- C1: per-unit failure isolation in a sync batch. Over the selected batch
(distinct unit names, well-formed starting manifest): every unit is processed
(one "Syncing" event each, in order — a failure never aborts the batch); each
unit whose download succeeded has the freshly recorded manifest entry; each
unit whose download raised keeps its previous entry (absent stays absent); the
success list is exactly the successfully downloaded units in order; and the
final "done" event reports exactly the number of successes. -/
theorem c1_failure_isolation (statuses : List SyncStatus) (selected : List String)
    (download : String → Except String (List String)) (sha now : String)
    (st : FileState) (hwf : WfState st)
    (hnodup : ((statuses.filter (fun s => selected.contains s.skill.name)).map
      (fun s => s.skill.name)).Nodup) :
    syncing_names (sync_selected statuses selected download sha now st).events =
      (statuses.filter (fun s => selected.contains s.skill.name)).map
        (fun s => s.skill.name) ∧
    (∀ s ∈ statuses.filter (fun s => selected.contains s.skill.name),
      ∀ files, download s.skill.name = .ok files →
        lookup_unit (sync_selected statuses selected download sha now st).state
          s.skill.name = some (mkEntry sha now files)) ∧
    (∀ s ∈ statuses.filter (fun s => selected.contains s.skill.name),
      ∀ msg, download s.skill.name = .error msg →
        lookup_unit (sync_selected statuses selected download sha now st).state
          s.skill.name = lookup_unit st s.skill.name) ∧
    (sync_selected statuses selected download sha now st).synced =
      ((statuses.filter (fun s => selected.contains s.skill.name)).filter
        (fun s => download_ok download s.skill.name)).map
        (fun s => s.skill.name) ∧
    (∃ evs, (sync_selected statuses selected download sha now st).events =
      evs ++ [ProgressEvent.done
        ((((statuses.filter (fun s => selected.contains s.skill.name)).filter
          (fun s => download_ok download s.skill.name)).map
          (fun s => s.skill.name)).length)]) := by
  obtain ⟨w1, w2, w3, w4, w5, w6⟩ := sync_loop_spec download sha now
    (statuses.filter (fun s => selected.contains s.skill.name)).length
    (statuses.filter (fun s => selected.contains s.skill.name)) 1 st hwf hnodup
  refine ⟨?_, ?_, ?_, ?_, ?_⟩
  · simp only [sync_selected, syncing_names_append, w3]
    simp [syncing_names]
  · intro s hs files hdl
    exact w5 s hs files hdl
  · intro s hs msg hdl
    exact w6 s hs msg hdl
  · exact w2
  · refine ⟨(sync_loop download sha now
      (statuses.filter (fun s => selected.contains s.skill.name)).length
      (statuses.filter (fun s => selected.contains s.skill.name)) 1 st).events, ?_⟩
    simp only [sync_selected, w2]

/-- Witness for C1: the spec scenario — a 3-unit batch whose second unit's
download raises; units 1 and 3 get manifest entries, unit 2 has none, and the
batch reports 2 successes. -/
theorem c1_failure_isolation_witness :
    WfState FileState.absent ∧
    ((([{ skill := { name := "alpha" }, status := "new" },
        { skill := { name := "beta" }, status := "new" },
        { skill := { name := "gamma" }, status := "new" }] :
          List SyncStatus).filter
      (fun s => ["alpha", "beta", "gamma"].contains s.skill.name)).map
      (fun s => s.skill.name)).Nodup ∧
    (∀ s ∈ ([{ skill := { name := "alpha" }, status := "new" },
        { skill := { name := "beta" }, status := "new" },
        { skill := { name := "gamma" }, status := "new" }] :
          List SyncStatus).filter
        (fun s => ["alpha", "beta", "gamma"].contains s.skill.name),
      ∀ files,
        (fun n => if n = "beta" then Except.error "boom"
          else Except.ok [n ++ "/SKILL.md"]) s.skill.name = .ok files →
        lookup_unit (sync_selected
          [{ skill := { name := "alpha" }, status := "new" },
           { skill := { name := "beta" }, status := "new" },
           { skill := { name := "gamma" }, status := "new" }]
          ["alpha", "beta", "gamma"]
          (fun n => if n = "beta" then Except.error "boom"
            else Except.ok [n ++ "/SKILL.md"])
          "abcdef1234567" "t0" .absent).state s.skill.name =
          some (mkEntry "abcdef1234567" "t0" files)) ∧
    (∀ s ∈ ([{ skill := { name := "alpha" }, status := "new" },
        { skill := { name := "beta" }, status := "new" },
        { skill := { name := "gamma" }, status := "new" }] :
          List SyncStatus).filter
        (fun s => ["alpha", "beta", "gamma"].contains s.skill.name),
      ∀ msg,
        (fun n => if n = "beta" then Except.error "boom"
          else Except.ok [n ++ "/SKILL.md"]) s.skill.name = .error msg →
        lookup_unit (sync_selected
          [{ skill := { name := "alpha" }, status := "new" },
           { skill := { name := "beta" }, status := "new" },
           { skill := { name := "gamma" }, status := "new" }]
          ["alpha", "beta", "gamma"]
          (fun n => if n = "beta" then Except.error "boom"
            else Except.ok [n ++ "/SKILL.md"])
          "abcdef1234567" "t0" .absent).state s.skill.name =
          lookup_unit .absent s.skill.name) ∧
    (sync_selected
      [{ skill := { name := "alpha" }, status := "new" },
       { skill := { name := "beta" }, status := "new" },
       { skill := { name := "gamma" }, status := "new" }]
      ["alpha", "beta", "gamma"]
      (fun n => if n = "beta" then Except.error "boom"
        else Except.ok [n ++ "/SKILL.md"])
      "abcdef1234567" "t0" .absent).synced = ["alpha", "gamma"] := by
  have hwf : WfState FileState.absent := ⟨[("skills", .obj [])], [], rfl, rfl⟩
  have h := c1_failure_isolation
    [{ skill := { name := "alpha" }, status := "new" },
     { skill := { name := "beta" }, status := "new" },
     { skill := { name := "gamma" }, status := "new" }]
    ["alpha", "beta", "gamma"]
    (fun n => if n = "beta" then Except.error "boom"
      else Except.ok [n ++ "/SKILL.md"])
    "abcdef1234567" "t0" .absent hwf (by decide)
  refine ⟨hwf, by decide, h.2.1, h.2.2.1, ?_⟩
  rw [h.2.2.2.1]
  decide

/-- Counterexample to C3 as stated: in a listing whose entries are a
directory (containing one file "inner") followed by a file "top", the walk
descends into the directory first, downloading "inner" before "top" — not
every file of the level before any descent, which would give
["top", "inner"]. -/
theorem c3_counterexample :
    download_directory
      [.dir "sub" "skills/u/sub" [.file "inner" "skills/u/sub/inner"],
       .file "top" "skills/u/top"] = ["inner", "top"] ∧
    download_directory
      [.dir "sub" "skills/u/sub" [.file "inner" "skills/u/sub/inner"],
       .file "top" "skills/u/top"] ≠ ["top", "inner"] := by
  constructor
  · simp [download_directory]
  · simp [download_directory]

/-- C3 amended: the walk is depth-first in listing-response order — each entry
is handled at its position: a file entry is downloaded and its leaf name
appended there; a directory entry is descended into immediately there (so a
file listed after a directory is downloaded after that directory's entire
subtree); entries of other types are skipped; order within a level is the
API's order, never re-sorted; and the returned list carries exactly one leaf
name per file of the subtree, in discovery order. -/
theorem c3_walk_order (pre post entries : List RemoteEntry)
    (name path fname fpath oname opath : String) :
    download_directory (pre ++ .dir name path entries :: post) =
      download_directory pre ++ download_directory entries ++
        download_directory post ∧
    download_directory (pre ++ .file fname fpath :: post) =
      download_directory pre ++ fname :: download_directory post ∧
    download_directory (pre ++ .other oname opath :: post) =
      download_directory pre ++ download_directory post ∧
    (download_directory entries).length = listing_file_count entries := by
  refine ⟨?_, ?_, ?_, download_directory_length entries⟩
  · rw [download_directory_append]
    simp [download_directory, List.append_assoc]
  · rw [download_directory_append]
    simp [download_directory]
  · rw [download_directory_append]
    simp [download_directory]

end SkillSync
